import Mathlib

/-!
Shallow embedding of the agentd session core (`backend/agentd/session.go`)
of the sensu-go monitoring backend, together with proofs of the spec's
claims about it.

The pure helpers (`diff`, `removeEmptySubscriptions`, `sortSubscriptions`)
are translated directly.  Stateful operations (`subscribe`, `unsubscribe`,
the sender's entity-config branch, `Start`, `NewSession`,
`handleKeepalive`) are embedded as explicit state-passing functions whose
external collaborators (message bus, entity store, codec, ring pool) are
oracles passed as function arguments, and whose externally visible
effects (bus publishes, bus subscribe/cancel calls, ring removals,
outbound transport frames, log lines) are returned as explicit traces.
-/

namespace Agentd

/-- Modelled from the spec: `corev2.EntityAgentClass` lives outside the
provided sources; the spec states the agent entity class is "agent". -/
def EntityAgentClass : String := "agent"

/-- Modelled from the spec: `corev2.KeepaliveCheckName` lives outside the
provided sources; the spec's scenarios name the keepalive check "keepalive". -/
def KeepaliveCheckName : String := "keepalive"

/-- Modelled from the spec: `corev2.ManagedByLabel` lives outside the
provided sources; the spec writes the label key as `managed_by`. -/
def ManagedByLabel : String := "managed_by"

/-- Modelled from the spec: `corev3.EntityNotFound` lives outside the
provided sources; the spec describes it as a well-known sentinel entity
name signalling that no stored config exists. -/
def EntityNotFound : String := "not found"

/-- Modelled from the spec: `messaging.TopicKeepalive` lives outside the
provided sources; the spec names the topic `keepalive`. -/
def TopicKeepalive : String := "keepalive"

/-- Modelled from the spec: `messaging.EntityConfigTopic` lives outside the
provided sources; the spec describes the per-agent topic
`entity_config(namespace, name)`. -/
def EntityConfigTopic (ns name : String) : String :=
  "entity_config:" ++ ns ++ ":" ++ name

/-- Modelled from the spec: `messaging.SubscriptionTopic` lives outside the
provided sources; the spec describes the per-check-subscription topic
`subscription(namespace, name)`. -/
def SubscriptionTopic (ns name : String) : String :=
  "subscription:" ++ ns ++ ":" ++ name

/-- Modelled from the spec: `ringv2.Path` lives outside the provided
sources; it names the round-robin ring of a subscription in a namespace. -/
def RingPath (ns sub : String) : String :=
  "ring:" ++ ns ++ ":" ++ sub

/-- The `deletedEventSentinel` constant of `session.go`: timestamp `-1`
marks a keepalive event as a switch-burial directive. -/
def deletedEventSentinel : Int := -1

/-- Embedding of `removeEmptySubscriptions` from `session.go`: keep the
non-empty subscription names, preserving order. -/
def removeEmptySubscriptions (subscriptions : List String) : List String :=
  subscriptions.filter (fun subscription => subscription ≠ "")

/-- Embedding of Go's `sort.StringsAreSorted`: the list is non-decreasing.
String comparison is done on the underlying character lists, which is
propositionally the same order as `String`'s (`String.le_iff_toList_le`)
but evaluates by kernel reduction. -/
def stringsAreSorted : List String → Bool
  | [] => true
  | [_] => true
  | a :: b :: rest => decide (a.data ≤ b.data) && stringsAreSorted (b :: rest)

/-- Embedding of `sortSubscriptions` from `session.go`: drop empty names,
return as-is when already sorted, otherwise return a sorted copy. -/
def sortSubscriptions (subscriptions : List String) : List String :=
  let subs := removeEmptySubscriptions subscriptions
  if stringsAreSorted subs then subs
  else subs.mergeSort (fun a b => decide (a.data ≤ b.data))

/-- Embedding of `diff` from `session.go`: two-pointer merge over the two
sorted lists returning `(added, removed)`.  `strings.Compare` is mapped to
the decidable equality on `String` and the lexicographic order on the
underlying character lists (the same order as `String`'s, by
`String.lt_iff_toList_lt`). -/
def diff : List String → List String → List String × List String
  | [], new => (new, [])
  | o :: old, [] => ([], o :: old)
  | o :: old, n :: new =>
    if o = n then diff old new
    else if o.data < n.data then
      let p := diff old (n :: new)
      (p.1, o :: p.2)
    else
      let p := diff (o :: old) new
      (n :: p.1, p.2)
termination_by old new => old.length + new.length

/-- Membership in the `added` component of `diff`: on strictly sorted
inputs, the added names are exactly the new names absent from the old list. -/
theorem mem_diff_added : (old new : List String) → old.Pairwise (· < ·) →
    new.Pairwise (· < ·) →
    ∀ x : String, x ∈ (diff old new).1 ↔ x ∈ new ∧ x ∉ old
  | [], new, _, _, x => by simp [diff]
  | o :: old, [], _, _, x => by simp [diff]
  | o :: old, n :: new, hold, hnew, x => by
    rcases List.pairwise_cons.mp hold with ⟨ho, hold'⟩
    rcases List.pairwise_cons.mp hnew with ⟨hn, hnew'⟩
    rw [diff]
    by_cases heq : o = n
    · subst heq
      rw [if_pos rfl, mem_diff_added old new hold' hnew' x]
      constructor
      · rintro ⟨hxnew, hxold⟩
        refine ⟨List.mem_cons_of_mem _ hxnew, fun hc => ?_⟩
        rcases List.mem_cons.mp hc with rfl | hc
        · exact absurd (hn x hxnew) (lt_irrefl x)
        · exact hxold hc
      · rintro ⟨hxnew, hxold⟩
        rcases List.mem_cons.mp hxnew with rfl | hxnew
        · exact absurd (List.mem_cons_self x old) hxold
        · exact ⟨hxnew, fun hc => hxold (List.mem_cons_of_mem _ hc)⟩
    · rw [if_neg heq]
      by_cases hlt : o < n
      · have honotnew : o ∉ n :: new := by
          intro hc
          rcases List.mem_cons.mp hc with rfl | hc
          · exact heq rfl
          · exact absurd (hlt.trans (hn o hc)) (lt_irrefl o)
        rw [if_pos (show o.data < n.data from String.lt_iff_toList_lt.mp hlt)]
        simp only
        rw [mem_diff_added old (n :: new) hold' hnew x]
        constructor
        · rintro ⟨hxnew, hxold⟩
          refine ⟨hxnew, fun hc => ?_⟩
          rcases List.mem_cons.mp hc with rfl | hc
          · exact honotnew hxnew
          · exact hxold hc
        · rintro ⟨hxnew, hxold⟩
          exact ⟨hxnew, fun hc => hxold (List.mem_cons_of_mem _ hc)⟩
      · have hgt : n < o := lt_of_le_of_ne (not_lt.mp hlt) (Ne.symm heq)
        have hnnotold : n ∉ o :: old := by
          intro hc
          rcases List.mem_cons.mp hc with rfl | hc
          · exact heq rfl
          · exact absurd (hgt.trans (ho n hc)) (lt_irrefl n)
        rw [if_neg (show ¬o.data < n.data from fun hc => hlt (String.lt_iff_toList_lt.mpr hc))]
        simp only [List.mem_cons]
        rw [mem_diff_added (o :: old) new hold hnew' x]
        constructor
        · rintro (rfl | ⟨hxnew, hxold⟩)
          · exact ⟨Or.inl rfl, fun hc => hnnotold (List.mem_cons.mpr hc)⟩
          · exact ⟨Or.inr hxnew, fun hc => hxold (List.mem_cons.mpr hc)⟩
        · rintro ⟨rfl | hxnew, hxold⟩
          · exact Or.inl rfl
          · exact Or.inr ⟨hxnew, fun hc => hxold (List.mem_cons.mp hc)⟩
termination_by old new => old.length + new.length

/-- Membership in the `removed` component of `diff`: on strictly sorted
inputs, the removed names are exactly the old names absent from the new
list. -/
theorem mem_diff_removed : (old new : List String) → old.Pairwise (· < ·) →
    new.Pairwise (· < ·) →
    ∀ x : String, x ∈ (diff old new).2 ↔ x ∈ old ∧ x ∉ new
  | [], new, _, _, x => by simp [diff]
  | o :: old, [], _, _, x => by simp [diff]
  | o :: old, n :: new, hold, hnew, x => by
    rcases List.pairwise_cons.mp hold with ⟨ho, hold'⟩
    rcases List.pairwise_cons.mp hnew with ⟨hn, hnew'⟩
    rw [diff]
    by_cases heq : o = n
    · subst heq
      rw [if_pos rfl, mem_diff_removed old new hold' hnew' x]
      constructor
      · rintro ⟨hxold, hxnew⟩
        refine ⟨List.mem_cons_of_mem _ hxold, fun hc => ?_⟩
        rcases List.mem_cons.mp hc with rfl | hc
        · exact absurd (ho x hxold) (lt_irrefl x)
        · exact hxnew hc
      · rintro ⟨hxold, hxnew⟩
        rcases List.mem_cons.mp hxold with rfl | hxold
        · exact absurd (List.mem_cons_self x new) hxnew
        · exact ⟨hxold, fun hc => hxnew (List.mem_cons_of_mem _ hc)⟩
    · rw [if_neg heq]
      by_cases hlt : o < n
      · have honotnew : o ∉ n :: new := by
          intro hc
          rcases List.mem_cons.mp hc with rfl | hc
          · exact heq rfl
          · exact absurd (hlt.trans (hn o hc)) (lt_irrefl o)
        rw [if_pos (show o.data < n.data from String.lt_iff_toList_lt.mp hlt)]
        simp only [List.mem_cons]
        rw [mem_diff_removed old (n :: new) hold' hnew x]
        constructor
        · rintro (rfl | ⟨hxold, hxnew⟩)
          · exact ⟨Or.inl rfl, fun hc => honotnew (List.mem_cons.mpr hc)⟩
          · exact ⟨Or.inr hxold, fun hc => hxnew (List.mem_cons.mpr hc)⟩
        · rintro ⟨rfl | hxold, hxnew⟩
          · exact Or.inl rfl
          · exact Or.inr ⟨hxold, fun hc => hxnew (List.mem_cons.mp hc)⟩
      · have hgt : n < o := lt_of_le_of_ne (not_lt.mp hlt) (Ne.symm heq)
        have hnnotold : n ∉ o :: old := by
          intro hc
          rcases List.mem_cons.mp hc with rfl | hc
          · exact heq rfl
          · exact absurd (hgt.trans (ho n hc)) (lt_irrefl n)
        rw [if_neg (show ¬o.data < n.data from fun hc => hlt (String.lt_iff_toList_lt.mpr hc))]
        simp only
        rw [mem_diff_removed (o :: old) new hold hnew' x]
        constructor
        · rintro ⟨hxold, hxnew⟩
          refine ⟨hxold, fun hc => ?_⟩
          rcases List.mem_cons.mp hc with rfl | hc
          · exact hnnotold hxold
          · exact hxnew hc
        · rintro ⟨hxold, hxnew⟩
          exact ⟨hxold, fun hc => hxnew (List.mem_cons_of_mem _ hc)⟩
termination_by old new => old.length + new.length

/-- C2: for sorted, duplicate-free string lists `A` and `B`,
`diff A B = (added, removed)` satisfies
`(set A ∪ set added) \ set removed = set B`, `set added ∩ set A = ∅` and
`set removed ∩ set B = ∅`. -/
theorem diff_reconciles (A B : List String)
    (hA : A.Pairwise (· < ·)) (hB : B.Pairwise (· < ·)) :
    (∀ x : String, ((x ∈ A ∨ x ∈ (diff A B).1) ∧ x ∉ (diff A B).2) ↔ x ∈ B) ∧
    (∀ x ∈ (diff A B).1, x ∉ A) ∧
    (∀ x ∈ (diff A B).2, x ∉ B) := by
  refine ⟨fun x => ?_, fun x hx => ((mem_diff_added A B hA hB x).mp hx).2,
    fun x hx => ((mem_diff_removed A B hA hB x).mp hx).2⟩
  rw [mem_diff_added A B hA hB x, mem_diff_removed A B hA hB x]
  constructor
  · rintro ⟨hA' | ⟨hB', _⟩, hrem⟩
    · by_contra hxB
      exact hrem ⟨hA', hxB⟩
    · exact hB'
  · intro hxB
    by_cases hxA : x ∈ A
    · exact ⟨Or.inl hxA, fun hc => hc.2 hxB⟩
    · exact ⟨Or.inr ⟨hxB, hxA⟩, fun hc => hc.2 hxB⟩

/-- Witness for `diff_reconciles` at `A = ["a","b"]`, `B = ["b","c"]`,
`x = "c"`. -/
theorem diff_reconciles_witness :
    List.Pairwise (fun a b : String => a < b) ["a", "b"] ∧
    ((("c" ∈ ["a", "b"] ∨ "c" ∈ (diff ["a", "b"] ["b", "c"]).1) ∧
        "c" ∉ (diff ["a", "b"] ["b", "c"]).2) ↔ "c" ∈ ["b", "c"]) :=
  ⟨by simp [String.lt_iff_toList_lt]; decide,
    (diff_reconciles ["a", "b"] ["b", "c"]
      (by simp [String.lt_iff_toList_lt]; decide)
      (by simp [String.lt_iff_toList_lt]; decide)).1 "c"⟩

/-- The `stringsAreSorted` check succeeds exactly on non-decreasing lists. -/
theorem stringsAreSorted_iff :
    ∀ l : List String, stringsAreSorted l = true ↔ l.Pairwise (· ≤ ·)
  | [] => by simp [stringsAreSorted]
  | [a] => by simp [stringsAreSorted]
  | a :: b :: rest => by
    rw [stringsAreSorted, Bool.and_eq_true, decide_eq_true_eq,
      stringsAreSorted_iff (b :: rest)]
    constructor
    · rintro ⟨h1, h2⟩
      refine List.pairwise_cons.mpr ⟨fun y hy => ?_, h2⟩
      rcases List.mem_cons.mp hy with rfl | hy
      · exact String.le_iff_toList_le.mpr h1
      · exact le_trans (String.le_iff_toList_le.mpr h1)
          (List.rel_of_pairwise_cons h2 hy)
    · intro h
      rcases List.pairwise_cons.mp h with ⟨hall, h2⟩
      exact ⟨String.le_iff_toList_le.mp (hall b (List.mem_cons_self b rest)), h2⟩

/-- Membership in `sortSubscriptions`: exactly the non-empty input names. -/
theorem mem_sortSubscriptions (l : List String) (x : String) :
    x ∈ sortSubscriptions l ↔ x ∈ l ∧ x ≠ "" := by
  simp only [sortSubscriptions]
  split
  · simp [removeEmptySubscriptions, List.mem_filter]
  · rw [List.mem_mergeSort]
    simp [removeEmptySubscriptions, List.mem_filter]

/-- The output of `sortSubscriptions` is non-decreasing. -/
theorem sortSubscriptions_sorted (l : List String) :
    (sortSubscriptions l).Pairwise (· ≤ ·) := by
  simp only [sortSubscriptions]
  split
  · next h => exact (stringsAreSorted_iff _).mp h
  · refine (List.sorted_mergeSort ?_ ?_ _).imp
      (fun h => String.le_iff_toList_le.mpr (of_decide_eq_true h))
    · intro a b c h1 h2
      exact decide_eq_true (le_trans (of_decide_eq_true h1) (of_decide_eq_true h2))
    · intro a b
      rcases le_total a.data b.data with h | h
      · exact Bool.or_eq_true_iff.mpr (Or.inl (decide_eq_true h))
      · exact Bool.or_eq_true_iff.mpr (Or.inr (decide_eq_true h))

/-- Applying `sortSubscriptions` twice changes nothing after the first
application. -/
theorem sortSubscriptions_idem (l : List String) :
    sortSubscriptions (sortSubscriptions l) = sortSubscriptions l := by
  have hne : removeEmptySubscriptions (sortSubscriptions l) = sortSubscriptions l := by
    refine List.filter_eq_self.mpr fun x hx => ?_
    exact decide_eq_true ((mem_sortSubscriptions l x).mp hx).2
  have hsorted : stringsAreSorted (sortSubscriptions l) = true :=
    (stringsAreSorted_iff _).mpr (sortSubscriptions_sorted l)
  conv_lhs => rw [sortSubscriptions]
  simp only [hne, hsorted, if_true]

/-- C4: for every string list `L`, `sortSubscriptions L` is sorted and
contains no empty strings, and `sortSubscriptions` is idempotent. -/
theorem sortSubscriptions_spec (L : List String) :
    (sortSubscriptions L).Pairwise (· ≤ ·) ∧
    "" ∉ sortSubscriptions L ∧
    sortSubscriptions (sortSubscriptions L) = sortSubscriptions L :=
  ⟨sortSubscriptions_sorted L,
   fun hc => ((mem_sortSubscriptions L "").mp hc).2 rfl,
   sortSubscriptions_idem L⟩

/-- A bus operation recorded in the session's effect trace: a `Subscribe`
call or a `Subscription.Cancel` call, identified by topic. -/
inductive BusCall where
  | sub (topic : String)
  | cancel (topic : String)
deriving DecidableEq

/-- Result of the `subscribe` method: the updated `subscriptionsMap`
(association list from topic to subscription handle), the bus calls made in
order, and the error returned, if any. -/
structure SubscribeResult where
  map : List (String × Nat)
  calls : List BusCall
  err : Option String
deriving DecidableEq

/-- Embedding of `Session.subscribe` from `session.go`.  The message bus is
an oracle from topic to either an error or the subscription handle it
returns.  Empty names are skipped, topics already in the map are skipped,
and a bus error is returned immediately; the map mutations made before the
error are kept (Go mutates the map in place). -/
def subscribe (ns : String) (bus : String → Except String Nat) :
    List (String × Nat) → List String → SubscribeResult
  | m, [] => ⟨m, [], none⟩
  | m, name :: rest =>
    if name = "" then subscribe ns bus m rest
    else if (m.lookup (SubscriptionTopic ns name)).isSome then
      subscribe ns bus m rest
    else
      match bus (SubscriptionTopic ns name) with
      | .error e => ⟨m, [.sub (SubscriptionTopic ns name)], some e⟩
      | .ok h =>
        let r := subscribe ns bus ((SubscriptionTopic ns name, h) :: m) rest
        ⟨r.map, .sub (SubscriptionTopic ns name) :: r.calls, r.err⟩

/-- The cancellation loop of `Session.unsubscribe` (lines 710-726 of
`session.go`): for each name, cancel the mapped subscription if present and
remove it from the map on success; a failed cancel or an absent entry is
logged (error level) and processing continues.  `cancelOk` is the oracle
deciding whether `Cancel` succeeds on a given handle.  Returns the updated
map, the cancel calls made, and the error-level log lines. -/
def cancelPhase (ns : String) (cancelOk : Nat → Bool) :
    List (String × Nat) → List String →
    List (String × Nat) × List BusCall × List String
  | m, [] => (m, [], [])
  | m, name :: rest =>
    match m.lookup (SubscriptionTopic ns name) with
    | some h =>
      if cancelOk h then
        let r := cancelPhase ns cancelOk
          (m.filter (fun p => p.1 ≠ SubscriptionTopic ns name)) rest
        (r.1, .cancel (SubscriptionTopic ns name) :: r.2.1, r.2.2)
      else
        let r := cancelPhase ns cancelOk m rest
        (r.1, .cancel (SubscriptionTopic ns name) :: r.2.1,
          ("unable to unsubscribe from " ++ name) :: r.2.2)
    | none =>
      let r := cancelPhase ns cancelOk m rest
      (r.1, r.2.1, ("session was not subscribed to " ++ name) :: r.2.2)

/-- Outcome of a `ring.Remove` call: success, or failure together with
whether the 1-second bounded context had expired by the time the failure
was observed. -/
inductive RingOutcome where
  | ok
  | failed (timedOut : Bool)
deriving DecidableEq

/-- The ring-removal loop of `Session.unsubscribe` (lines 741-759 of
`session.go`): for each name without the `entity:` prefix, call
`Remove(ctx, agent)` on the ring at `RingPath ns name` under a context
bounded by a 1-second timeout (the `1` recorded with each call); on failure
increment the error-counter metric, and if the bounded context has timed
out, abandon the loop.  No log line is ever produced here.  Returns the
ring calls `(path, member, timeout-bound-in-seconds)` in order, and the
number of metric increments. -/
def ringPhase (ns agent : String) (ring : String → RingOutcome) :
    List String → List (String × String × Nat) × Nat
  | [] => ([], 0)
  | name :: rest =>
    if name.startsWith "entity:" then ringPhase ns agent ring rest
    else
      match ring (RingPath ns name) with
      | .ok =>
        let r := ringPhase ns agent ring rest
        ((RingPath ns name, agent, 1) :: r.1, r.2)
      | .failed timedOut =>
        if timedOut then ([(RingPath ns name, agent, 1)], 1)
        else
          let r := ringPhase ns agent ring rest
          ((RingPath ns name, agent, 1) :: r.1, r.2 + 1)

/-- Result of the `unsubscribe` method: updated map, cancel calls,
error-level log lines, ring removals performed, and ring-error metric
increments. -/
structure UnsubscribeResult where
  map : List (String × Nat)
  calls : List BusCall
  logs : List String
  ringCalls : List (String × String × Nat)
  ringErrMetric : Nat
deriving DecidableEq

/-- Embedding of `Session.unsubscribe` from `session.go`: the cancel loop,
then — only when a ring pool is present and the deregister flag is set —
the ring-removal loop. -/
def unsubscribe (ns agent : String) (hasRingPool deregister : Bool)
    (cancelOk : Nat → Bool) (ring : String → RingOutcome)
    (m : List (String × Nat)) (subscriptions : List String) :
    UnsubscribeResult :=
  let c := cancelPhase ns cancelOk m subscriptions
  if !hasRingPool then ⟨c.1, c.2.1, c.2.2, [], 0⟩
  else if !deregister then ⟨c.1, c.2.1, c.2.2, [], 0⟩
  else
    let r := ringPhase ns agent ring subscriptions
    ⟨c.1, c.2.1, c.2.2, r.1, r.2⟩

/-- The subscription-related state of a session: the current subscription
list (`cfg.Subscriptions`) and the `subscriptionsMap`. -/
structure SessionSubState where
  subscriptions : List String
  map : List (String × Nat)
deriving DecidableEq

/-- One reconciliation step of the sender (lines 370-387 of `session.go`):
sort the current and incoming lists, diff them, store the sorted incoming
list, subscribe to the added names and unsubscribe from the removed names.
Bus subscribe and cancel are taken to succeed (`busHandle` supplies the
handle returned for each topic); the ring pool is absent, which leaves the
subscription map unaffected, exactly as in the source. -/
def reconcile (ns agent : String) (busHandle : String → Nat)
    (st : SessionSubState) (entitySubscriptions : List String) :
    SessionSubState :=
  let oldSubscriptions := sortSubscriptions st.subscriptions
  let newSubscriptions := sortSubscriptions entitySubscriptions
  let p := diff oldSubscriptions newSubscriptions
  let m1 := if 0 < p.1.length
    then (subscribe ns (fun t => Except.ok (busHandle t)) st.map p.1).map
    else st.map
  let m2 := if 0 < p.2.length
    then (unsubscribe ns agent false false (fun _ => true)
      (fun _ => RingOutcome.ok) m1 p.2).map
    else m1
  ⟨newSubscriptions, m2⟩

/-- A sequence of entity subscription lists fed to reconciliation, one
step per list. -/
def runReconcile (ns agent : String) (busHandle : String → Nat) :
    SessionSubState → List (List String) → SessionSubState
  | st, [] => st
  | st, s :: rest =>
    runReconcile ns agent busHandle (reconcile ns agent busHandle st s) rest

/-- A `corev3.EntityConfig` as the session uses it: metadata name,
namespace and labels, plus entity class, subscriptions and the deregister
flag. -/
structure EntityConfigV3 where
  name : String
  ns : String
  labels : List (String × String)
  entityClass : String
  subscriptions : List String
  deregister : Bool
deriving DecidableEq

/-- The action of a `store.WatchEventEntityConfig`. -/
inductive WatchAction where
  | create
  | update
  | delete
  | unknown
deriving DecidableEq

/-- A `store.WatchEventEntityConfig`: an action and an optional entity. -/
structure WatchEventEntityConfig where
  action : WatchAction
  entity : Option EntityConfigV3
deriving DecidableEq

/-- The outbound transport frame types the sender emits. -/
inductive MessageType where
  | entityConfigType
  | checkRequestType
deriving DecidableEq

/-- An outbound transport frame: a type tag and the marshalled payload. -/
structure TransportMessage where
  type : MessageType
  payload : List Nat
deriving DecidableEq

/-- What the sender does with one dequeued entity-config watch event. -/
inductive SenderOutcome where
  | stopSession
  | skip
  | send (msg : TransportMessage)
deriving DecidableEq

/-- Result of the sender's handling of one entity-config watch event. -/
structure SenderStepResult where
  outcome : SenderOutcome
  deregister : Bool
  subscriptions : List String
  map : List (String × Nat)
  storeWrites : List EntityConfigV3
  busCalls : List BusCall
deriving DecidableEq

/-- Embedding of the sender's entity-config branch (lines 299-393 of
`session.go`): handle delete/unknown actions and nil entities, coerce a
non-agent entity class and persist it without forwarding, otherwise update
the deregister flag, marshal the entity, reconcile subscriptions, and —
despite the debug log saying otherwise when the entity carries the
`managed_by = "sensu-agent"` label — build an `EntityConfig` frame to
send.  `marshal` is the codec oracle; a marshal failure skips the event. -/
def senderEntityConfigStep (ns agent : String)
    (bus : String → Except String Nat) (cancelOk : Nat → Bool)
    (hasRingPool : Bool) (ring : String → RingOutcome)
    (marshal : EntityConfigV3 → Option (List Nat))
    (deregister : Bool) (subscriptions : List String)
    (m : List (String × Nat))
    (watchEvent : WatchEventEntityConfig) : SenderStepResult :=
  match watchEvent.action with
  | .delete => ⟨.stopSession, deregister, subscriptions, m, [], []⟩
  | .unknown => ⟨.skip, deregister, subscriptions, m, [], []⟩
  | _ =>
    match watchEvent.entity with
    | none => ⟨.skip, deregister, subscriptions, m, [], []⟩
    | some entity =>
      if entity.entityClass ≠ EntityAgentClass then
        ⟨.skip, deregister, subscriptions, m,
          [{ entity with entityClass := EntityAgentClass }], []⟩
      else
        let dereg := entity.deregister
        match marshal entity with
        | none => ⟨.skip, dereg, subscriptions, m, [], []⟩
        | some bytes =>
          let oldSubscriptions := sortSubscriptions subscriptions
          let newSubscriptions := sortSubscriptions entity.subscriptions
          let p := diff oldSubscriptions newSubscriptions
          let sres := if 0 < p.1.length
            then subscribe ns bus m p.1
            else ⟨m, [], none⟩
          let ures := if 0 < p.2.length
            then unsubscribe ns agent hasRingPool dereg cancelOk ring sres.map p.2
            else ⟨sres.map, [], [], [], 0⟩
          ⟨.send ⟨.entityConfigType, bytes⟩, dereg, newSubscriptions,
            ures.map, [], sres.calls ++ ures.calls⟩

/-- The error side of the entity-config store `Get`. -/
inductive GetError where
  | notFound
  | internal (msg : String)
deriving DecidableEq

/-- Result of `Session.Start`: the watch events published (with their
topics), the final session subscription list, the resulting subscription
map, the bus calls made, and the error returned, if any. -/
structure StartResult where
  published : List (String × WatchEventEntityConfig)
  finalSubscriptions : List String
  map : List (String × Nat)
  busCalls : List BusCall
  err : Option String
deriving DecidableEq

/-- Embedding of the bootstrap part of `Session.Start` (lines 467-553 of
`session.go`): subscribe to the per-agent entity-config topic, `Get` the
stored entity config; on not-found publish a synthetic `Create` event with
the placeholder entity; on success strip the `managed_by = "sensu-agent"`
label if present, publish an `Update` event with the stored entity and
adopt its subscriptions; finally subscribe to the current check
subscriptions.  `ecSubscribe` is the outcome of the entity-config topic
subscription, `get` the store lookup (`UnwrapInto` modelled as the
identity on the stored config), `publish` the bus publish oracle
(`none` = success) and `bus` the check-subscription subscribe oracle. -/
def start (ns agent : String) (cfgSubscriptions : List String)
    (ecSubscribe : Except String Nat)
    (get : Except GetError EntityConfigV3)
    (publish : String → WatchEventEntityConfig → Option String)
    (bus : String → Except String Nat) : StartResult :=
  match ecSubscribe with
  | .error e => ⟨[], cfgSubscriptions, [], [.sub (EntityConfigTopic ns agent)], some e⟩
  | .ok _ =>
    match get with
    | .error .notFound =>
      let watchEvent : WatchEventEntityConfig :=
        ⟨.create, some ⟨EntityNotFound, ns, [], EntityAgentClass, [], false⟩⟩
      match publish (EntityConfigTopic ns agent) watchEvent with
      | some e =>
        ⟨[(EntityConfigTopic ns agent, watchEvent)], cfgSubscriptions, [],
          [.sub (EntityConfigTopic ns agent)], some e⟩
      | none =>
        let sres := subscribe ns bus [] cfgSubscriptions
        ⟨[(EntityConfigTopic ns agent, watchEvent)], cfgSubscriptions, sres.map,
          .sub (EntityConfigTopic ns agent) :: sres.calls, sres.err⟩
    | .error (.internal msg) =>
      ⟨[], cfgSubscriptions, [], [.sub (EntityConfigTopic ns agent)], some msg⟩
    | .ok storedEntityConfig =>
      let stored :=
        if (storedEntityConfig.labels.lookup ManagedByLabel).getD "" = "sensu-agent" then
          { storedEntityConfig with
            labels := storedEntityConfig.labels.filter (fun p => p.1 ≠ ManagedByLabel) }
        else storedEntityConfig
      let watchEvent : WatchEventEntityConfig := ⟨.update, some stored⟩
      match publish (EntityConfigTopic ns agent) watchEvent with
      | some e =>
        ⟨[(EntityConfigTopic ns agent, watchEvent)], cfgSubscriptions, [],
          [.sub (EntityConfigTopic ns agent)], some e⟩
      | none =>
        let sres := subscribe ns bus [] stored.subscriptions
        ⟨[(EntityConfigTopic ns agent, watchEvent)], stored.subscriptions, sres.map,
          .sub (EntityConfigTopic ns agent) :: sres.calls, sres.err⟩

/-- A `corev2.ObjectMeta` as the session uses it. -/
structure ObjectMetaV2 where
  name : String
  ns : String
deriving DecidableEq

/-- A `corev2.Entity` as the session uses it.  The entity pointer is
modelled as always present: every event the session publishes carries one,
and inbound events reach this code only after validation. -/
structure EntityV2 where
  meta : ObjectMetaV2
  subscriptions : List String
  entityClass : String
deriving DecidableEq

/-- A `corev2.Check` as the session uses it. -/
structure CheckV2 where
  meta : ObjectMetaV2
deriving DecidableEq

/-- A `corev2.Event` as the session uses it. -/
structure EventV2 where
  meta : ObjectMetaV2
  entity : EntityV2
  check : Option CheckV2
  timestamp : Int
deriving DecidableEq

/-- Embedding of `makeEntitySwitchBurialEvent` from `session.go`: the
synthetic keepalive published at construction, carrying the sentinel
timestamp `-1`, the agent identity and the keepalive check name. -/
def makeEntitySwitchBurialEvent (ns agent : String)
    (subscriptions : List String) : EventV2 :=
  { meta := ⟨"", ns⟩,
    entity := ⟨⟨agent, ns⟩, subscriptions, EntityAgentClass⟩,
    check := some ⟨⟨KeepaliveCheckName, ns⟩⟩,
    timestamp := deletedEventSentinel }

/-- Embedding of `NewSession` from `session.go`, restricted to its
externally visible effects: it publishes the switch-burial event on the
keepalive topic and fails exactly when that publish fails.  Returns the
publish trace and the error, if any. -/
def NewSession (ns agent : String) (subscriptions : List String)
    (publish : String → EventV2 → Option String) :
    List (String × EventV2) × Option String :=
  let ev := makeEntitySwitchBurialEvent ns agent subscriptions
  ([(TopicKeepalive, ev)], publish TopicKeepalive ev)

/-- Modelled from the spec: `corev2.AddEntitySubscription` lives outside
the provided sources; the spec says an `entity:<name>` subscription is
attached (appended) to the entity's subscription list. -/
def addEntitySubscription (name : String)
    (subscriptions : List String) : List String :=
  subscriptions ++ ["entity:" ++ name]

/-- Embedding of `Session.handleKeepalive` from `session.go`: unmarshal
the payload, validate, reject a zero timestamp, append the entity
subscription and publish on the keepalive topic, returning the publish
result.  `unmarshal` is the codec oracle and `validate` the
`corev2.Event.Validate` oracle (`none` = valid); both live outside the
provided sources.  Returns the publish trace and the error, if any. -/
def handleKeepalive (unmarshal : List Nat → Except String EventV2)
    (validate : EventV2 → Option String)
    (publish : String → EventV2 → Option String)
    (payload : List Nat) : List (String × EventV2) × Option String :=
  match unmarshal payload with
  | .error e => ([], some e)
  | .ok keepalive =>
    match validate keepalive with
    | some e => ([], some e)
    | none =>
      if keepalive.timestamp = 0 then
        ([], some "keepalive contains invalid timestamp")
      else
        let keepalive' := { keepalive with entity := { keepalive.entity with
          subscriptions := addEntitySubscription keepalive.entity.meta.name
            keepalive.entity.subscriptions } }
        ([(TopicKeepalive, keepalive')], publish TopicKeepalive keepalive')

/-- C8: `NewSession` publishes exactly one event, on the keepalive topic:
the switch-burial event, whose timestamp is `-1`, whose check name is the
keepalive check name, and whose entity carries the configured namespace,
agent name, reported subscriptions and entity class "agent"; it performs no
other externally visible side effect, and it returns an error exactly when
that publish fails (its result is the publish outcome itself). -/
theorem NewSession_spec (ns agent : String) (subscriptions : List String)
    (publish : String → EventV2 → Option String) :
    (NewSession ns agent subscriptions publish).1
      = [(TopicKeepalive, makeEntitySwitchBurialEvent ns agent subscriptions)] ∧
    (makeEntitySwitchBurialEvent ns agent subscriptions).timestamp = -1 ∧
    ((makeEntitySwitchBurialEvent ns agent subscriptions).check.map
      (fun c => c.meta.name)) = some KeepaliveCheckName ∧
    (makeEntitySwitchBurialEvent ns agent subscriptions).entity
      = ⟨⟨agent, ns⟩, subscriptions, EntityAgentClass⟩ ∧
    (NewSession ns agent subscriptions publish).2
      = publish TopicKeepalive (makeEntitySwitchBurialEvent ns agent subscriptions) :=
  ⟨rfl, rfl, rfl, rfl, rfl⟩

/-- C9: `handleKeepalive` returns an error and publishes nothing when
unmarshalling fails, when validation fails, or when the event timestamp is
zero; otherwise it appends the `entity:<name>` subscription to the event
entity's subscription list and publishes the event on the keepalive topic,
returning the publish result. -/
theorem handleKeepalive_spec (unmarshal : List Nat → Except String EventV2)
    (validate : EventV2 → Option String)
    (publish : String → EventV2 → Option String) (payload : List Nat) :
    (∀ e, unmarshal payload = .error e →
      handleKeepalive unmarshal validate publish payload = ([], some e)) ∧
    (∀ ev e, unmarshal payload = .ok ev → validate ev = some e →
      handleKeepalive unmarshal validate publish payload = ([], some e)) ∧
    (∀ ev, unmarshal payload = .ok ev → validate ev = none → ev.timestamp = 0 →
      handleKeepalive unmarshal validate publish payload
        = ([], some "keepalive contains invalid timestamp")) ∧
    (∀ ev, unmarshal payload = .ok ev → validate ev = none → ev.timestamp ≠ 0 →
      handleKeepalive unmarshal validate publish payload
        = ([(TopicKeepalive, { ev with entity := { ev.entity with
              subscriptions := addEntitySubscription ev.entity.meta.name
                ev.entity.subscriptions } })],
           publish TopicKeepalive { ev with entity := { ev.entity with
              subscriptions := addEntitySubscription ev.entity.meta.name
                ev.entity.subscriptions } }) ∧
      addEntitySubscription ev.entity.meta.name ev.entity.subscriptions
        = ev.entity.subscriptions ++ ["entity:" ++ ev.entity.meta.name]) := by
  refine ⟨?_, ?_, ?_, ?_⟩
  · intro e h
    simp [handleKeepalive, h]
  · intro ev e h hv
    simp [handleKeepalive, h, hv]
  · intro ev h hv ht
    simp [handleKeepalive, h, hv, ht]
  · intro ev h hv ht
    exact ⟨by simp [handleKeepalive, h, hv, ht], rfl⟩

/-- Witness for `handleKeepalive_spec`: the success path at a concrete
event with name "node-1" and subscriptions `["a"]`. -/
theorem handleKeepalive_spec_witness :
    handleKeepalive
      (fun _ => .ok ⟨⟨"", "default"⟩, ⟨⟨"node-1", "default"⟩, ["a"],
        EntityAgentClass⟩, none, 5⟩)
      (fun _ => none) (fun _ _ => none) [0]
      = ([(TopicKeepalive, ⟨⟨"", "default"⟩, ⟨⟨"node-1", "default"⟩,
          ["a"] ++ ["entity:" ++ "node-1"], EntityAgentClass⟩, none, 5⟩)], none) :=
  ((handleKeepalive_spec
      (fun _ => .ok ⟨⟨"", "default"⟩, ⟨⟨"node-1", "default"⟩, ["a"],
        EntityAgentClass⟩, none, 5⟩)
      (fun _ => none) (fun _ _ => none) [0]).2.2.2
    ⟨⟨"", "default"⟩, ⟨⟨"node-1", "default"⟩, ["a"], EntityAgentClass⟩, none, 5⟩
    rfl rfl (by decide)).1

/-- C1 (evaluation at the failing input): for a watch event whose entity
is non-nil, whose action is Update, whose class is "agent" and which
carries the label `managed_by = "sensu-agent"`, the sender does reconcile
subscriptions (a bus subscribe for the added name and a cancel for the
removed one) but then still emits an outbound frame of type `EntityConfig`
— contradicting the claim and the code's own "not sending entity update"
log message. -/
theorem sender_managed_by_still_sends :
    (([(ManagedByLabel, "sensu-agent")].lookup ManagedByLabel).getD ""
      = "sensu-agent") ∧
    senderEntityConfigStep "default" "node-1" (fun _ => Except.ok 0)
        (fun _ => true) false (fun _ => RingOutcome.ok) (fun _ => some [1])
        false ["a"] [(SubscriptionTopic "default" "a", 5)]
        ⟨.update, some ⟨"node-1", "default", [(ManagedByLabel, "sensu-agent")],
          EntityAgentClass, ["b"], false⟩⟩
      = ⟨.send ⟨.entityConfigType, [1]⟩, false, ["b"],
          [(SubscriptionTopic "default" "b", 0)], [],
          [.sub (SubscriptionTopic "default" "b"),
            .cancel (SubscriptionTopic "default" "a")]⟩ := by
  constructor
  · decide
  · have hdiff : diff ["a"] ["b"] = (["b"], ["a"]) := by
      simp [diff, show ("a" : String).data < ("b" : String).data from by decide]
    have hsub : subscribe "default" (fun _ => Except.ok 0)
        [(SubscriptionTopic "default" "a", 5)] ["b"]
        = ⟨[(SubscriptionTopic "default" "b", 0),
            (SubscriptionTopic "default" "a", 5)],
          [.sub (SubscriptionTopic "default" "b")], none⟩ := by decide
    have huns : unsubscribe "default" "node-1" false false (fun _ => true)
        (fun _ => RingOutcome.ok)
        [(SubscriptionTopic "default" "b", 0),
          (SubscriptionTopic "default" "a", 5)] ["a"]
        = ⟨[(SubscriptionTopic "default" "b", 0)],
            [.cancel (SubscriptionTopic "default" "a")], [], [], 0⟩ := by decide
    have hsa : sortSubscriptions ["a"] = ["a"] := by decide
    have hsb : sortSubscriptions ["b"] = ["b"] := by decide
    simp [senderEntityConfigStep, hsa, hsb, hdiff, hsub, huns, EntityAgentClass]

/-- When the bus grants every subscription, `subscribe` returns no error. -/
theorem subscribe_allok_err (ns : String) (f : String → Nat) :
    ∀ (names : List String) (m : List (String × Nat)),
      (subscribe ns (fun t => Except.ok (f t)) m names).err = none := by
  intro names
  induction names with
  | nil => intro m; rfl
  | cons name rest ih =>
    intro m
    rw [subscribe]
    split
    · exact ih m
    · split
      · exact ih m
      · exact ih _

/-- C5: when `Start` finds a stored entity config, it strips the
`managed_by` label exactly when its value is "sensu-agent", publishes an
`Update` watch event on the entity-config topic carrying the stored
entity, replaces the session's subscription list with the stored entity's
subscriptions (discarding the agent-reported ones), and the subsequent
check-subscription subscribe runs on the stored list. -/
theorem start_found_spec (ns agent : String) (cfgSubscriptions : List String)
    (h : Nat) (stored : EntityConfigV3)
    (publish : String → WatchEventEntityConfig → Option String)
    (bus : String → Except String Nat)
    (hpub : ∀ t ev, publish t ev = none) :
    start ns agent cfgSubscriptions (.ok h) (.ok stored) publish bus
      = { published := [(EntityConfigTopic ns agent, ⟨.update, some
            (if (stored.labels.lookup ManagedByLabel).getD "" = "sensu-agent" then
              { stored with labels :=
                  stored.labels.filter (fun p => p.1 ≠ ManagedByLabel) }
            else stored)⟩)],
          finalSubscriptions := stored.subscriptions,
          map := (subscribe ns bus [] stored.subscriptions).map,
          busCalls := .sub (EntityConfigTopic ns agent)
            :: (subscribe ns bus [] stored.subscriptions).calls,
          err := (subscribe ns bus [] stored.subscriptions).err } := by
  have hsubs : (if (stored.labels.lookup ManagedByLabel).getD "" = "sensu-agent" then
      { stored with labels :=
          stored.labels.filter (fun p => p.1 ≠ ManagedByLabel) }
    else stored).subscriptions = stored.subscriptions := by
    split <;> rfl
  simp only [start, hpub, hsubs]

/-- Witness for `start_found_spec`: scenario B of the spec — the agent
reports `["disk"]`, the store returns subscriptions `["net","ram"]` with
the `managed_by = "sensu-agent"` label; the label is stripped, the stored
subscriptions are adopted and subscribed. -/
theorem start_found_spec_witness :
    start "default" "node-1" ["disk"] (.ok 0)
        (.ok ⟨"node-1", "default", [(ManagedByLabel, "sensu-agent")],
          EntityAgentClass, ["net", "ram"], false⟩)
        (fun _ _ => none) (fun _ => Except.ok 3)
      = { published := [(EntityConfigTopic "default" "node-1", ⟨.update, some
            (if (([(ManagedByLabel, "sensu-agent")].lookup ManagedByLabel)).getD ""
                = "sensu-agent" then
              { name := "node-1", ns := "default",
                labels := [(ManagedByLabel, "sensu-agent")].filter
                  (fun p => p.1 ≠ ManagedByLabel),
                entityClass := EntityAgentClass,
                subscriptions := ["net", "ram"], deregister := false }
            else ⟨"node-1", "default", [(ManagedByLabel, "sensu-agent")],
              EntityAgentClass, ["net", "ram"], false⟩)⟩)],
          finalSubscriptions := ["net", "ram"],
          map := (subscribe "default" (fun _ => Except.ok 3) []
            ["net", "ram"]).map,
          busCalls := .sub (EntityConfigTopic "default" "node-1")
            :: (subscribe "default" (fun _ => Except.ok 3) []
              ["net", "ram"]).calls,
          err := (subscribe "default" (fun _ => Except.ok 3) []
            ["net", "ram"]).err } :=
  start_found_spec "default" "node-1" ["disk"] 0
    ⟨"node-1", "default", [(ManagedByLabel, "sensu-agent")],
      EntityAgentClass, ["net", "ram"], false⟩
    (fun _ _ => none) (fun _ => Except.ok 3) (fun _ _ => rfl)

/-- C6: when the store `Get` reports not-found, `Start` publishes exactly
one `Create` watch event on the entity-config topic whose entity is the
placeholder with name `EntityNotFound` and class "agent", and does not
fail; any other `Get` error makes `Start` return that error without
publishing anything. -/
theorem start_notfound_spec (ns agent : String) (cfgSubscriptions : List String)
    (h : Nat) (publish : String → WatchEventEntityConfig → Option String)
    (busH : String → Nat)
    (hpub : ∀ t ev, publish t ev = none) :
    (start ns agent cfgSubscriptions (.ok h) (.error .notFound) publish
        (fun t => Except.ok (busH t))).published
      = [(EntityConfigTopic ns agent,
          ⟨.create, some ⟨EntityNotFound, ns, [], EntityAgentClass, [], false⟩⟩)] ∧
    (start ns agent cfgSubscriptions (.ok h) (.error .notFound) publish
        (fun t => Except.ok (busH t))).err = none ∧
    (∀ (msg : String) (pub2 : String → WatchEventEntityConfig → Option String)
        (bus2 : String → Except String Nat),
      (start ns agent cfgSubscriptions (.ok h) (.error (.internal msg))
        pub2 bus2).err = some msg ∧
      (start ns agent cfgSubscriptions (.ok h) (.error (.internal msg))
        pub2 bus2).published = []) := by
  refine ⟨?_, ?_, fun msg pub2 bus2 => ⟨rfl, rfl⟩⟩
  · simp [start, hpub]
  · simp [start, hpub, subscribe_allok_err]

/-- Witness for `start_notfound_spec`: scenario A of the spec at concrete
inputs. -/
theorem start_notfound_spec_witness :
    (start "default" "node-1" ["disk", "cpu"] (.ok 0) (.error .notFound)
        (fun _ _ => none) (fun _ => Except.ok 2)).published
      = [(EntityConfigTopic "default" "node-1",
          ⟨.create, some ⟨EntityNotFound, "default", [], EntityAgentClass,
            [], false⟩⟩)] ∧
    (start "default" "node-1" ["disk", "cpu"] (.ok 0) (.error .notFound)
        (fun _ _ => none) (fun _ => Except.ok 2)).err = none :=
  ⟨(start_notfound_spec "default" "node-1" ["disk", "cpu"] 0
      (fun _ _ => none) (fun _ => 2) (fun _ _ => rfl)).1,
   (start_notfound_spec "default" "node-1" ["disk", "cpu"] 0
      (fun _ _ => none) (fun _ => 2) (fun _ _ => rfl)).2.1⟩

/-- Unfolding `ringPhase` on an entity-prefixed name: skipped. -/
theorem ringPhase_cons_entity (ns agent : String) (ring : String → RingOutcome)
    (name : String) (rest : List String)
    (h : name.startsWith "entity:" = true) :
    ringPhase ns agent ring (name :: rest) = ringPhase ns agent ring rest := by
  rw [ringPhase, if_pos h]

/-- Unfolding `ringPhase` on a successful removal. -/
theorem ringPhase_cons_ok (ns agent : String) (ring : String → RingOutcome)
    (name : String) (rest : List String)
    (h1 : name.startsWith "entity:" = false)
    (h2 : ring (RingPath ns name) = .ok) :
    ringPhase ns agent ring (name :: rest)
      = ((RingPath ns name, agent, 1) :: (ringPhase ns agent ring rest).1,
          (ringPhase ns agent ring rest).2) := by
  rw [ringPhase, if_neg (by simp [h1]), h2]

/-- Unfolding `ringPhase` on a failed removal whose bounded context has not
timed out: the metric is incremented and the loop continues. -/
theorem ringPhase_cons_failed (ns agent : String) (ring : String → RingOutcome)
    (name : String) (rest : List String)
    (h1 : name.startsWith "entity:" = false)
    (h2 : ring (RingPath ns name) = .failed false) :
    ringPhase ns agent ring (name :: rest)
      = ((RingPath ns name, agent, 1) :: (ringPhase ns agent ring rest).1,
          (ringPhase ns agent ring rest).2 + 1) := by
  rw [ringPhase, if_neg (by simp [h1]), h2]
  simp

/-- Unfolding `ringPhase` on a failed removal whose bounded context has
timed out: the metric is incremented and the loop is abandoned. -/
theorem ringPhase_cons_timeout (ns agent : String) (ring : String → RingOutcome)
    (name : String) (rest : List String)
    (h1 : name.startsWith "entity:" = false)
    (h2 : ring (RingPath ns name) = .failed true) :
    ringPhase ns agent ring (name :: rest)
      = ([(RingPath ns name, agent, 1)], 1) := by
  rw [ringPhase, if_neg (by simp [h1]), h2]
  simp

/-- Every ring call made by `ringPhase` is a `Remove` of the agent, under
the 1-second bound, on the ring of a non-entity name from the input. -/
theorem ringPhase_calls_shape (ns agent : String) (ring : String → RingOutcome) :
    ∀ (names : List String) (c : String × String × Nat),
      c ∈ (ringPhase ns agent ring names).1 →
      ∃ s ∈ names, s.startsWith "entity:" = false ∧ c = (RingPath ns s, agent, 1) := by
  intro names
  induction names with
  | nil => intro c hc; cases hc
  | cons name rest ih =>
    intro c hc
    by_cases hpre : name.startsWith "entity:" = true
    · rw [ringPhase_cons_entity ns agent ring name rest hpre] at hc
      obtain ⟨s, hs, hc⟩ := ih c hc
      exact ⟨s, List.mem_cons_of_mem _ hs, hc⟩
    · have hpre' : name.startsWith "entity:" = false := Bool.eq_false_iff.mpr hpre
      rcases hout : ring (RingPath ns name) with _ | tv
      · rw [ringPhase_cons_ok ns agent ring name rest hpre' hout] at hc
        rcases List.mem_cons.mp hc with rfl | hc
        · exact ⟨name, List.mem_cons_self name rest, hpre', rfl⟩
        · obtain ⟨s, hs, hc⟩ := ih c hc
          exact ⟨s, List.mem_cons_of_mem _ hs, hc⟩
      · cases tv with
        | true =>
          rw [ringPhase_cons_timeout ns agent ring name rest hpre' hout] at hc
          rcases List.mem_cons.mp hc with rfl | hc
          · exact ⟨name, List.mem_cons_self name rest, hpre', rfl⟩
          · cases hc
        | false =>
          rw [ringPhase_cons_failed ns agent ring name rest hpre' hout] at hc
          rcases List.mem_cons.mp hc with rfl | hc
          · exact ⟨name, List.mem_cons_self name rest, hpre', rfl⟩
          · obtain ⟨s, hs, hc⟩ := ih c hc
            exact ⟨s, List.mem_cons_of_mem _ hs, hc⟩

/-- The ring-error metric counts exactly the failed ring calls. -/
theorem ringPhase_metric (ns agent : String) (ring : String → RingOutcome) :
    ∀ names : List String,
      (ringPhase ns agent ring names).2
        = (ringPhase ns agent ring names).1.countP
            (fun c => decide (ring c.1 ≠ RingOutcome.ok)) := by
  intro names
  induction names with
  | nil => rfl
  | cons name rest ih =>
    by_cases hpre : name.startsWith "entity:" = true
    · rw [ringPhase_cons_entity ns agent ring name rest hpre]
      exact ih
    · have hpre' : name.startsWith "entity:" = false := Bool.eq_false_iff.mpr hpre
      rcases hout : ring (RingPath ns name) with _ | tv
      · rw [ringPhase_cons_ok ns agent ring name rest hpre' hout]
        simp [List.countP_cons, hout, ih]
      · cases tv with
        | true =>
          rw [ringPhase_cons_timeout ns agent ring name rest hpre' hout]
          simp [List.countP_cons, hout]
        | false =>
          rw [ringPhase_cons_failed ns agent ring name rest hpre' hout]
          simp [List.countP_cons, hout, ih]

/-- The ring-removal loop is abandoned at the first timed-out removal: the
calls made are those for the names before it, then the timed-out call, and
nothing for the names after it. -/
theorem ringPhase_stops_at_timeout (ns agent : String)
    (ring : String → RingOutcome) :
    ∀ (pre : List String) (s : String) (post : List String),
      s.startsWith "entity:" = false →
      ring (RingPath ns s) = .failed true →
      (∀ s' ∈ pre, s'.startsWith "entity:" = false →
        ring (RingPath ns s') ≠ .failed true) →
      (ringPhase ns agent ring (pre ++ s :: post)).1
        = (ringPhase ns agent ring pre).1 ++ [(RingPath ns s, agent, 1)] := by
  intro pre
  induction pre with
  | nil =>
    intro s post hs hring _
    rw [List.nil_append, ringPhase_cons_timeout ns agent ring s post hs hring,
      ringPhase]
    rfl
  | cons p pre' ih =>
    intro s post hs hring hpre
    have htail := ih s post hs hring
      (fun s' hs' => hpre s' (List.mem_cons_of_mem _ hs'))
    rw [List.cons_append]
    by_cases hp : p.startsWith "entity:" = true
    · rw [ringPhase_cons_entity ns agent ring p _ hp,
        ringPhase_cons_entity ns agent ring p pre' hp, htail]
    · have hp' : p.startsWith "entity:" = false := Bool.eq_false_iff.mpr hp
      have hne := hpre p (List.mem_cons_self p pre') hp'
      rcases hout : ring (RingPath ns p) with _ | tv
      · rw [ringPhase_cons_ok ns agent ring p _ hp' hout,
          ringPhase_cons_ok ns agent ring p pre' hp' hout]
        simp [htail]
      · cases tv with
        | true => exact absurd hout hne
        | false =>
          rw [ringPhase_cons_failed ns agent ring p _ hp' hout,
            ringPhase_cons_failed ns agent ring p pre' hp' hout]
          simp [htail]

/-- When no removal times out, the ring loop performs exactly one removal,
in order, for every name without the `entity:` prefix. -/
theorem ringPhase_calls_no_timeout (ns agent : String)
    (ring : String → RingOutcome) :
    ∀ names : List String,
      (∀ s ∈ names, s.startsWith "entity:" = false →
        ring (RingPath ns s) ≠ .failed true) →
      (ringPhase ns agent ring names).1
        = (names.filter (fun s => !s.startsWith "entity:")).map
            (fun s => (RingPath ns s, agent, 1)) := by
  intro names
  induction names with
  | nil => intro _; rfl
  | cons name rest ih =>
    intro hno
    have htail := ih (fun s hs h => hno s (List.mem_cons_of_mem _ hs) h)
    by_cases hp : name.startsWith "entity:" = true
    · rw [ringPhase_cons_entity ns agent ring name rest hp, htail]
      simp [List.filter_cons, hp]
    · have hp' : name.startsWith "entity:" = false := Bool.eq_false_iff.mpr hp
      have hne := hno name (List.mem_cons_self name rest) hp'
      rcases hout : ring (RingPath ns name) with _ | tv
      · rw [ringPhase_cons_ok ns agent ring name rest hp' hout]
        simp [List.filter_cons, hp', htail]
      · cases tv with
        | true => exact absurd hout hne
        | false =>
          rw [ringPhase_cons_failed ns agent ring name rest hp' hout]
          simp [List.filter_cons, hp', htail]

/-- C7: ring removal in `unsubscribe` happens only when the ring pool is
present and the deregister flag is set; in that case, when no removal
times out, every removed name without the `entity:` prefix gets exactly
one `Remove(ctx, agent)` call on its ring under the 1-second bound (and
nothing else is called); a removal failure only increments the error
metric and produces no log line (the log lines are exactly those of the
cancel loop, whatever the ring outcomes); and the loop is abandoned right
after the first timed-out removal, the earlier non-entity names each
having received their removal call. -/
theorem unsubscribe_ring_spec (ns agent : String)
    (hasRingPool deregister : Bool) (cancelOk : Nat → Bool)
    (ring : String → RingOutcome) (m : List (String × Nat))
    (subs : List String) :
    let r := unsubscribe ns agent hasRingPool deregister cancelOk ring m subs
    ((hasRingPool = false ∨ deregister = false) →
      r.ringCalls = [] ∧ r.ringErrMetric = 0) ∧
    r.logs = (cancelPhase ns cancelOk m subs).2.2 ∧
    (∀ c ∈ r.ringCalls, ∃ s ∈ subs,
      s.startsWith "entity:" = false ∧ c = (RingPath ns s, agent, 1)) ∧
    r.ringErrMetric
      = r.ringCalls.countP (fun c => decide (ring c.1 ≠ RingOutcome.ok)) ∧
    (hasRingPool = true → deregister = true →
      (∀ s ∈ subs, s.startsWith "entity:" = false →
        ring (RingPath ns s) ≠ .failed true) →
      r.ringCalls = (subs.filter (fun s => !s.startsWith "entity:")).map
          (fun s => (RingPath ns s, agent, 1))) ∧
    (hasRingPool = true → deregister = true →
      ∀ (pre : List String) (s : String) (post : List String),
        subs = pre ++ s :: post →
        s.startsWith "entity:" = false →
        ring (RingPath ns s) = .failed true →
        (∀ s' ∈ pre, s'.startsWith "entity:" = false →
          ring (RingPath ns s') ≠ .failed true) →
        r.ringCalls
          = (pre.filter (fun s => !s.startsWith "entity:")).map
              (fun s => (RingPath ns s, agent, 1))
            ++ [(RingPath ns s, agent, 1)]) := by
  cases hasRingPool with
  | false =>
    refine ⟨fun _ => ⟨rfl, rfl⟩, rfl, ?_, rfl, ?_, ?_⟩
    · intro c hc; cases hc
    · intro hcon; cases hcon
    · intro hcon; cases hcon
  | true =>
    cases deregister with
    | false =>
      refine ⟨fun _ => ⟨rfl, rfl⟩, rfl, ?_, rfl, ?_, ?_⟩
      · intro c hc; cases hc
      · intro _ hcon; cases hcon
      · intro _ hcon; cases hcon
    | true =>
      refine ⟨?_, rfl, ?_, ?_, ?_, ?_⟩
      · rintro (hcon | hcon) <;> cases hcon
      · exact ringPhase_calls_shape ns agent ring subs
      · exact ringPhase_metric ns agent ring subs
      · intro _ _ hno
        show (ringPhase ns agent ring subs).1 = _
        exact ringPhase_calls_no_timeout ns agent ring subs hno
      · intro _ _ pre s post hdecomp hs hring hpre
        show (ringPhase ns agent ring subs).1 = _
        rw [hdecomp,
          ringPhase_stops_at_timeout ns agent ring pre s post hs hring hpre,
          ringPhase_calls_no_timeout ns agent ring pre hpre]

/-- Witness for `unsubscribe_ring_spec`: first, with a ring pool, the
deregister flag set and no failures, every non-entity removed name gets
its removal call; second, with a ring oracle that times out on "b", "a" is
removed, "b"'s removal is the last call, and "c" is never removed. -/
theorem unsubscribe_ring_spec_witness :
    ((unsubscribe "default" "node-1" true true (fun _ => true)
        (fun _ => RingOutcome.ok) [] ["a", "entity:x", "b"]).ringCalls
      = (["a", "entity:x", "b"].filter (fun s => !s.startsWith "entity:")).map
          (fun s => (RingPath "default" s, "node-1", 1))) ∧
    ((unsubscribe "default" "node-1" true true (fun _ => true)
        (fun p => if p = RingPath "default" "b" then .failed true else .ok)
        [(SubscriptionTopic "default" "a", 1)] ["a", "b", "c"]).ringCalls
      = (["a"].filter (fun s => !s.startsWith "entity:")).map
          (fun s => (RingPath "default" s, "node-1", 1))
        ++ [(RingPath "default" "b", "node-1", 1)]) :=
  ⟨(unsubscribe_ring_spec "default" "node-1" true true (fun _ => true)
      (fun _ => RingOutcome.ok) [] ["a", "entity:x", "b"]).2.2.2.2.1
      rfl rfl (by intro s hs h; decide),
   (unsubscribe_ring_spec "default" "node-1" true true (fun _ => true)
      (fun p => if p = RingPath "default" "b" then .failed true else .ok)
      [(SubscriptionTopic "default" "a", 1)]
      ["a", "b", "c"]).2.2.2.2.2 rfl rfl ["a"] "b" ["c"] rfl (by decide)
    (by decide) (by decide)⟩

/-- Unfolding `subscribe` on an empty name: skipped. -/
theorem subscribe_cons_empty (ns : String) (bus : String → Except String Nat)
    (name : String) (rest : List String) (m : List (String × Nat))
    (h : name = "") :
    subscribe ns bus m (name :: rest) = subscribe ns bus m rest := by
  rw [subscribe, if_pos h]

/-- Unfolding `subscribe` on an already-subscribed topic: skipped. -/
theorem subscribe_cons_skip (ns : String) (bus : String → Except String Nat)
    (name : String) (rest : List String) (m : List (String × Nat))
    (h1 : name ≠ "")
    (h2 : (m.lookup (SubscriptionTopic ns name)).isSome = true) :
    subscribe ns bus m (name :: rest) = subscribe ns bus m rest := by
  rw [subscribe, if_neg h1, if_pos h2]

/-- Unfolding `subscribe` on a fresh name the bus accepts: the handle is
recorded and processing continues. -/
theorem subscribe_cons_ok (ns : String) (bus : String → Except String Nat)
    (name : String) (rest : List String) (m : List (String × Nat)) (hdl : Nat)
    (h1 : name ≠ "")
    (h2 : (m.lookup (SubscriptionTopic ns name)).isSome = false)
    (h3 : bus (SubscriptionTopic ns name) = .ok hdl) :
    subscribe ns bus m (name :: rest)
      = ⟨(subscribe ns bus ((SubscriptionTopic ns name, hdl) :: m) rest).map,
          .sub (SubscriptionTopic ns name)
            :: (subscribe ns bus ((SubscriptionTopic ns name, hdl) :: m) rest).calls,
          (subscribe ns bus ((SubscriptionTopic ns name, hdl) :: m) rest).err⟩ := by
  rw [subscribe, if_neg h1, if_neg (by simp [h2]), h3]

/-- Unfolding `subscribe` on a fresh name the bus rejects: the error is
returned immediately and the map is left as it was. -/
theorem subscribe_cons_err (ns : String) (bus : String → Except String Nat)
    (name : String) (rest : List String) (m : List (String × Nat)) (e : String)
    (h1 : name ≠ "")
    (h2 : (m.lookup (SubscriptionTopic ns name)).isSome = false)
    (h3 : bus (SubscriptionTopic ns name) = .error e) :
    subscribe ns bus m (name :: rest)
      = ⟨m, [.sub (SubscriptionTopic ns name)], some e⟩ := by
  rw [subscribe, if_neg h1, if_neg (by simp [h2]), h3]

/-- Continuation lemma for `subscribe`: when the first chunk of the list
succeeds, running the whole list equals running the first chunk and
continuing from its map, with the call traces concatenated. -/
theorem subscribe_append (ns : String) (bus : String → Except String Nat) :
    ∀ (pre rest : List String) (m : List (String × Nat)),
      (subscribe ns bus m pre).err = none →
      subscribe ns bus m (pre ++ rest)
        = ⟨(subscribe ns bus (subscribe ns bus m pre).map rest).map,
            (subscribe ns bus m pre).calls
              ++ (subscribe ns bus (subscribe ns bus m pre).map rest).calls,
            (subscribe ns bus (subscribe ns bus m pre).map rest).err⟩ := by
  intro pre
  induction pre with
  | nil =>
    intro rest m _
    simp [subscribe]
  | cons name pre' ih =>
    intro rest m herr
    rw [List.cons_append]
    by_cases h1 : name = ""
    · rw [subscribe_cons_empty ns bus name pre' m h1] at herr
      rw [subscribe_cons_empty ns bus name (pre' ++ rest) m h1,
        subscribe_cons_empty ns bus name pre' m h1]
      exact ih rest m herr
    · by_cases h2 : (m.lookup (SubscriptionTopic ns name)).isSome = true
      · rw [subscribe_cons_skip ns bus name pre' m h1 h2] at herr
        rw [subscribe_cons_skip ns bus name (pre' ++ rest) m h1 h2,
          subscribe_cons_skip ns bus name pre' m h1 h2]
        exact ih rest m herr
      · have h2' : (m.lookup (SubscriptionTopic ns name)).isSome = false :=
          Bool.eq_false_iff.mpr h2
        rcases h3 : bus (SubscriptionTopic ns name) with e | hdl
        · rw [subscribe_cons_err ns bus name pre' m e h1 h2' h3] at herr
          simp at herr
        · rw [subscribe_cons_ok ns bus name pre' m hdl h1 h2' h3] at herr
          rw [subscribe_cons_ok ns bus name (pre' ++ rest) m hdl h1 h2' h3,
            subscribe_cons_ok ns bus name pre' m hdl h1 h2' h3]
          have hrec := ih rest ((SubscriptionTopic ns name, hdl) :: m) herr
          rw [hrec]
          simp

/-- Entries present in the map are never removed by `subscribe`. -/
theorem subscribe_mono (ns : String) (bus : String → Except String Nat) :
    ∀ (names : List String) (m : List (String × Nat)) (p : String × Nat),
      p ∈ m → p ∈ (subscribe ns bus m names).map := by
  intro names
  induction names with
  | nil => intro m p hp; exact hp
  | cons name rest ih =>
    intro m p hp
    rw [subscribe]
    split
    · exact ih m p hp
    · split
      · exact ih m p hp
      · rcases h3 : bus (SubscriptionTopic ns name) with e | hdl
        · exact hp
        · exact ih _ p (List.mem_cons_of_mem _ hp)

/-- `subscribe` only issues bus Subscribe calls, never a Cancel. -/
theorem subscribe_calls_sub (ns : String) (bus : String → Except String Nat) :
    ∀ (names : List String) (m : List (String × Nat)) (c : BusCall),
      c ∈ (subscribe ns bus m names).calls → ∃ t, c = BusCall.sub t := by
  intro names
  induction names with
  | nil => intro m c hc; cases hc
  | cons name rest ih =>
    intro m c hc
    rw [subscribe] at hc
    revert hc
    split
    · exact ih m c
    · split
      · exact ih m c
      · rcases h3 : bus (SubscriptionTopic ns name) with e | hdl
        · intro hc
          rcases List.mem_singleton.mp hc with rfl
          exact ⟨_, rfl⟩
        · intro hc
          rcases List.mem_cons.mp hc with rfl | hc
          · exact ⟨_, rfl⟩
          · exact ih _ c hc

/-- C10: when the bus Subscribe fails on a fresh, non-empty name, the
`subscribe` call returns that error immediately: the names after it are
not processed, the error frame is the last bus call, the handles recorded
for earlier names stay in the map exactly as after processing them, the
original entries are all still present (no rollback), and no subscription
is ever cancelled. -/
theorem subscribe_fail_no_rollback (ns : String) (bus : String → Except String Nat)
    (m : List (String × Nat)) (pre : List String) (bad : String)
    (post : List String) (e : String)
    (hpre : (subscribe ns bus m pre).err = none)
    (hbad : bad ≠ "")
    (hnot : (((subscribe ns bus m pre).map.lookup
      (SubscriptionTopic ns bad)).isSome) = false)
    (hbus : bus (SubscriptionTopic ns bad) = .error e) :
    (subscribe ns bus m (pre ++ bad :: post)).err = some e ∧
    (subscribe ns bus m (pre ++ bad :: post)).map
      = (subscribe ns bus m pre).map ∧
    (subscribe ns bus m (pre ++ bad :: post)).calls
      = (subscribe ns bus m pre).calls
          ++ [BusCall.sub (SubscriptionTopic ns bad)] ∧
    (∀ p ∈ m, p ∈ (subscribe ns bus m (pre ++ bad :: post)).map) ∧
    (∀ c ∈ (subscribe ns bus m (pre ++ bad :: post)).calls,
      ∃ t, c = BusCall.sub t) := by
  have hstep : subscribe ns bus (subscribe ns bus m pre).map (bad :: post)
      = ⟨(subscribe ns bus m pre).map,
          [.sub (SubscriptionTopic ns bad)], some e⟩ :=
    subscribe_cons_err ns bus bad post _ e hbad hnot hbus
  have happ := subscribe_append ns bus pre (bad :: post) m hpre
  rw [happ, hstep]
  refine ⟨rfl, rfl, rfl, ?_, ?_⟩
  · intro p hp
    exact subscribe_mono ns bus pre m p hp
  · intro c hc
    rcases List.mem_append.mp hc with hc | hc
    · exact subscribe_calls_sub ns bus pre m c hc
    · rcases List.mem_singleton.mp hc with rfl
      exact ⟨_, rfl⟩

/-- Witness for `subscribe_fail_no_rollback`: the bus rejects topic "b" after
granting "a"; the error surfaces, the handle for "a" is kept, "c" is never
processed. -/
theorem subscribe_fail_no_rollback_witness :
    (subscribe "default"
        (fun t => if t = SubscriptionTopic "default" "b"
          then Except.error "boom" else Except.ok 7)
        [] (["a"] ++ "b" :: ["c"])).err = some "boom" ∧
    (subscribe "default"
        (fun t => if t = SubscriptionTopic "default" "b"
          then Except.error "boom" else Except.ok 7)
        [] (["a"] ++ "b" :: ["c"])).map
      = (subscribe "default"
          (fun t => if t = SubscriptionTopic "default" "b"
            then Except.error "boom" else Except.ok 7)
          [] ["a"]).map :=
  ⟨(subscribe_fail_no_rollback "default"
      (fun t => if t = SubscriptionTopic "default" "b"
        then Except.error "boom" else Except.ok 7)
      [] ["a"] "b" ["c"] "boom" rfl (by decide) rfl rfl).1,
   (subscribe_fail_no_rollback "default"
      (fun t => if t = SubscriptionTopic "default" "b"
        then Except.error "boom" else Except.ok 7)
      [] ["a"] "b" ["c"] "boom" rfl (by decide) rfl rfl).2.1⟩

/-- `SubscriptionTopic ns` is injective in the subscription name. -/
theorem SubscriptionTopic_inj (ns : String) {a b : String}
    (h : SubscriptionTopic ns a = SubscriptionTopic ns b) : a = b := by
  unfold SubscriptionTopic at h
  have h2 := congrArg String.data h
  rw [String.data_append ("subscription:" ++ ns ++ ":") a,
    String.data_append ("subscription:" ++ ns ++ ":") b] at h2
  exact String.toList_inj.mp (List.append_cancel_left h2)

/-- A topic is a key of the association map exactly when `lookup` finds
it. -/
theorem lookup_isSome_iff (m : List (String × Nat)) (t : String) :
    (m.lookup t).isSome = true ↔ t ∈ m.map Prod.fst := by
  induction m with
  | nil => simp [List.lookup]
  | cons p rest ih =>
    rcases p with ⟨k, v⟩
    rw [List.lookup]
    by_cases h : t = k
    · subst h; simp
    · have hbeq : (t == k) = false := beq_eq_false_iff_ne.mpr h
      rw [hbeq]
      simp [ih, h]

/-- On inputs that are strictly sorted and free of empty strings,
`sortSubscriptions` is the identity. -/
theorem sortSubscriptions_eq_self (l : List String)
    (hs : l.Pairwise (· < ·)) (hne : "" ∉ l) :
    sortSubscriptions l = l := by
  have hfilter : removeEmptySubscriptions l = l := by
    refine List.filter_eq_self.mpr fun x hx => ?_
    exact decide_eq_true (fun hxe => hne (hxe ▸ hx))
  have hsorted : stringsAreSorted l = true :=
    (stringsAreSorted_iff l).mpr (hs.imp le_of_lt)
  simp [sortSubscriptions, hfilter, hsorted]

/-- Keys of the map after an all-successful `subscribe`: the old keys plus
the topics of the non-empty requested names. -/
theorem mem_keys_subscribe_allok (ns : String) (f : String → Nat) :
    ∀ (names : List String) (m : List (String × Nat)) (t : String),
      t ∈ ((subscribe ns (fun t => Except.ok (f t)) m names).map.map Prod.fst)
        ↔ t ∈ m.map Prod.fst
          ∨ ∃ s ∈ names, s ≠ "" ∧ t = SubscriptionTopic ns s := by
  intro names
  induction names with
  | nil =>
    intro m t
    simp [subscribe]
  | cons name rest ih =>
    intro m t
    by_cases h1 : name = ""
    · rw [subscribe_cons_empty ns _ name rest m h1, ih m t]
      constructor
      · rintro (h | ⟨s, hs, hsne, ht⟩)
        · exact Or.inl h
        · exact Or.inr ⟨s, List.mem_cons_of_mem _ hs, hsne, ht⟩
      · rintro (h | ⟨s, hs, hsne, ht⟩)
        · exact Or.inl h
        · rcases List.mem_cons.mp hs with rfl | hs
          · exact absurd h1 hsne
          · exact Or.inr ⟨s, hs, hsne, ht⟩
    · by_cases h2 : ((m.lookup (SubscriptionTopic ns name)).isSome) = true
      · rw [subscribe_cons_skip ns _ name rest m h1 h2, ih m t]
        have hkey : SubscriptionTopic ns name ∈ m.map Prod.fst :=
          (lookup_isSome_iff m _).mp h2
        constructor
        · rintro (h | ⟨s, hs, hsne, ht⟩)
          · exact Or.inl h
          · exact Or.inr ⟨s, List.mem_cons_of_mem _ hs, hsne, ht⟩
        · rintro (h | ⟨s, hs, hsne, ht⟩)
          · exact Or.inl h
          · rcases List.mem_cons.mp hs with rfl | hs
            · exact Or.inl (ht ▸ hkey)
            · exact Or.inr ⟨s, hs, hsne, ht⟩
      · have h2' := Bool.eq_false_iff.mpr h2
        rw [subscribe_cons_ok ns _ name rest m
          (f (SubscriptionTopic ns name)) h1 h2' rfl]
        dsimp only
        rw [ih ((SubscriptionTopic ns name, f (SubscriptionTopic ns name)) :: m) t]
        simp only [List.map_cons, List.mem_cons]
        constructor
        · rintro ((rfl | h) | ⟨s, hs, hsne, ht⟩)
          · exact Or.inr ⟨name, Or.inl rfl, h1, rfl⟩
          · exact Or.inl h
          · exact Or.inr ⟨s, Or.inr hs, hsne, ht⟩
        · rintro (h | ⟨s, rfl | hs, hsne, ht⟩)
          · exact Or.inl (Or.inr h)
          · exact Or.inl (Or.inl ht)
          · exact Or.inr ⟨s, hs, hsne, ht⟩

/-- Keys of a map filtered on its key component. -/
theorem mem_keys_filter (m : List (String × Nat)) (k t : String) :
    t ∈ ((m.filter (fun p => p.1 ≠ k)).map Prod.fst)
      ↔ t ∈ m.map Prod.fst ∧ t ≠ k := by
  simp only [List.mem_map, List.mem_filter]
  constructor
  · rintro ⟨p, ⟨hp, hpk⟩, rfl⟩
    exact ⟨⟨p, hp, rfl⟩, of_decide_eq_true hpk⟩
  · rintro ⟨⟨p, hp, rfl⟩, htk⟩
    exact ⟨p, ⟨hp, decide_eq_true htk⟩, rfl⟩

/-- Unfolding the cancel loop on a name found in the map when cancels
always succeed. -/
theorem cancelPhase_allok_cons_found (ns : String) (name : String)
    (rest : List String) (m : List (String × Nat)) (hdl : Nat)
    (hl : m.lookup (SubscriptionTopic ns name) = some hdl) :
    cancelPhase ns (fun _ => true) m (name :: rest)
      = ((cancelPhase ns (fun _ => true)
            (m.filter (fun p => p.1 ≠ SubscriptionTopic ns name)) rest).1,
          .cancel (SubscriptionTopic ns name)
            :: (cancelPhase ns (fun _ => true)
              (m.filter (fun p => p.1 ≠ SubscriptionTopic ns name)) rest).2.1,
          (cancelPhase ns (fun _ => true)
            (m.filter (fun p => p.1 ≠ SubscriptionTopic ns name)) rest).2.2) := by
  rw [cancelPhase, hl]
  simp

/-- Unfolding the cancel loop on a name absent from the map. -/
theorem cancelPhase_cons_none (ns : String) (cancelOk : Nat → Bool)
    (name : String) (rest : List String) (m : List (String × Nat))
    (hl : m.lookup (SubscriptionTopic ns name) = none) :
    cancelPhase ns cancelOk m (name :: rest)
      = ((cancelPhase ns cancelOk m rest).1,
          (cancelPhase ns cancelOk m rest).2.1,
          ("session was not subscribed to " ++ name)
            :: (cancelPhase ns cancelOk m rest).2.2) := by
  rw [cancelPhase, hl]

/-- Keys of the map after a cancel loop whose cancels all succeed: the old
keys minus the topics of the processed names. -/
theorem mem_keys_cancelPhase_allok (ns : String) :
    ∀ (names : List String) (m : List (String × Nat)) (t : String),
      t ∈ ((cancelPhase ns (fun _ => true) m names).1.map Prod.fst)
        ↔ t ∈ m.map Prod.fst ∧ ¬∃ s ∈ names, t = SubscriptionTopic ns s := by
  intro names
  induction names with
  | nil => intro m t; simp [cancelPhase]
  | cons name rest ih =>
    intro m t
    rcases hl : m.lookup (SubscriptionTopic ns name) with _ | hdl
    · rw [cancelPhase_cons_none ns _ name rest m hl]
      dsimp only
      rw [ih m t]
      have hnk : SubscriptionTopic ns name ∉ m.map Prod.fst := by
        rw [← lookup_isSome_iff]
        simp [hl]
      constructor
      · rintro ⟨hm, hrest⟩
        refine ⟨hm, ?_⟩
        rintro ⟨s, hs, ht⟩
        rcases List.mem_cons.mp hs with rfl | hs
        · exact hnk (ht ▸ hm)
        · exact hrest ⟨s, hs, ht⟩
      · rintro ⟨hm, hall⟩
        exact ⟨hm, fun hc =>
          hall ⟨hc.choose, List.mem_cons_of_mem _ hc.choose_spec.1,
            hc.choose_spec.2⟩⟩
    · rw [cancelPhase_allok_cons_found ns name rest m hdl hl]
      dsimp only
      rw [ih _ t, mem_keys_filter]
      constructor
      · rintro ⟨⟨hm, htk⟩, hrest⟩
        refine ⟨hm, ?_⟩
        rintro ⟨s, hs, ht⟩
        rcases List.mem_cons.mp hs with rfl | hs
        · exact htk ht
        · exact hrest ⟨s, hs, ht⟩
      · rintro ⟨hm, hall⟩
        refine ⟨⟨hm, fun ht => hall ⟨name, List.mem_cons_self _ _, ht⟩⟩, ?_⟩
        rintro ⟨s, hs, ht⟩
        exact hall ⟨s, List.mem_cons_of_mem _ hs, ht⟩

/-- One reconciliation step on well-formed lists: afterwards the stored
list is the incoming one, and the map keys are exactly its topics. -/
theorem reconcile_spec (ns agent : String) (f : String → Nat)
    (st : SessionSubState) (S : List String)
    (hinv : ∀ t, t ∈ st.map.map Prod.fst
      ↔ ∃ s ∈ st.subscriptions, t = SubscriptionTopic ns s)
    (hsort : st.subscriptions.Pairwise (· < ·))
    (hne : "" ∉ st.subscriptions)
    (hS : S.Pairwise (· < ·)) (hSne : "" ∉ S) :
    (reconcile ns agent f st S).subscriptions = S ∧
    ∀ t, t ∈ (reconcile ns agent f st S).map.map Prod.fst
      ↔ ∃ s ∈ S, t = SubscriptionTopic ns s := by
  have hold : sortSubscriptions st.subscriptions = st.subscriptions :=
    sortSubscriptions_eq_self _ hsort hne
  have hnew : sortSubscriptions S = S := sortSubscriptions_eq_self _ hS hSne
  have hadd := mem_diff_added st.subscriptions S hsort hS
  have hrem := mem_diff_removed st.subscriptions S hsort hS
  have hm1 : ∀ t,
      t ∈ ((if 0 < (diff st.subscriptions S).1.length
        then (subscribe ns (fun t => Except.ok (f t)) st.map
          (diff st.subscriptions S).1).map
        else st.map).map Prod.fst)
      ↔ t ∈ st.map.map Prod.fst
        ∨ ∃ s ∈ (diff st.subscriptions S).1, s ≠ "" ∧ t = SubscriptionTopic ns s := by
    intro t
    by_cases hp : 0 < (diff st.subscriptions S).1.length
    · rw [if_pos hp]
      exact mem_keys_subscribe_allok ns f _ st.map t
    · rw [if_neg hp]
      have h0 : (diff st.subscriptions S).1 = [] :=
        List.length_eq_zero.mp (Nat.eq_zero_of_not_pos hp)
      simp [h0]
  have huns : ∀ (mm : List (String × Nat)) (names : List String),
      (unsubscribe ns agent false false (fun _ => true)
        (fun _ => RingOutcome.ok) mm names).map
        = (cancelPhase ns (fun _ => true) mm names).1 := fun mm names => rfl
  have hm2 : ∀ (mm : List (String × Nat)) (t : String),
      t ∈ ((if 0 < (diff st.subscriptions S).2.length
        then (unsubscribe ns agent false false (fun _ => true)
          (fun _ => RingOutcome.ok) mm (diff st.subscriptions S).2).map
        else mm).map Prod.fst)
      ↔ t ∈ mm.map Prod.fst
        ∧ ¬∃ s ∈ (diff st.subscriptions S).2, t = SubscriptionTopic ns s := by
    intro mm t
    by_cases hp : 0 < (diff st.subscriptions S).2.length
    · rw [if_pos hp, huns]
      exact mem_keys_cancelPhase_allok ns _ mm t
    · rw [if_neg hp]
      have h0 : (diff st.subscriptions S).2 = [] :=
        List.length_eq_zero.mp (Nat.eq_zero_of_not_pos hp)
      simp [h0]
  constructor
  · simp [reconcile, hnew]
  · intro t
    have hmap : (reconcile ns agent f st S).map
        = (if 0 < (diff st.subscriptions S).2.length
          then (unsubscribe ns agent false false (fun _ => true)
            (fun _ => RingOutcome.ok)
            (if 0 < (diff st.subscriptions S).1.length
              then (subscribe ns (fun t => Except.ok (f t)) st.map
                (diff st.subscriptions S).1).map
              else st.map)
            (diff st.subscriptions S).2).map
          else (if 0 < (diff st.subscriptions S).1.length
            then (subscribe ns (fun t => Except.ok (f t)) st.map
              (diff st.subscriptions S).1).map
            else st.map)) := by
      simp [reconcile, hold, hnew]
    rw [hmap, hm2 _ t, hm1 t, hinv t]
    constructor
    · rintro ⟨hL, hR⟩
      rcases hL with ⟨s, hsold, rfl⟩ | ⟨s, hsadd, hsne, rfl⟩
      · by_cases hsS : s ∈ S
        · exact ⟨s, hsS, rfl⟩
        · exact absurd ⟨s, (hrem s).mpr ⟨hsold, hsS⟩, rfl⟩ hR
      · exact ⟨s, ((hadd s).mp hsadd).1, rfl⟩
    · rintro ⟨s, hsS, rfl⟩
      refine ⟨?_, ?_⟩
      · by_cases hsold : s ∈ st.subscriptions
        · exact Or.inl ⟨s, hsold, rfl⟩
        · refine Or.inr ⟨s, (hadd s).mpr ⟨hsS, hsold⟩, fun hse => hSne (hse ▸ hsS), rfl⟩
      · rintro ⟨s2, hs2, ht2⟩
        have heq := SubscriptionTopic_inj ns ht2
        subst heq
        exact ((hrem s).mp hs2).2 hsS

/-- The reconciliation invariant along any run over well-formed lists. -/
theorem runReconcile_keys (ns agent : String) (f : String → Nat) :
    ∀ (ss : List (List String)) (st : SessionSubState),
      (∀ t, t ∈ st.map.map Prod.fst
        ↔ ∃ s ∈ st.subscriptions, t = SubscriptionTopic ns s) →
      st.subscriptions.Pairwise (· < ·) → "" ∉ st.subscriptions →
      (∀ S ∈ ss, S.Pairwise (· < ·) ∧ "" ∉ S) →
      ∀ (i : Nat) (hi : i < ss.length) (t : String),
        t ∈ (runReconcile ns agent f st (ss.take (i+1))).map.map Prod.fst
          ↔ ∃ s ∈ ss.get ⟨i, hi⟩, t = SubscriptionTopic ns s := by
  intro ss
  induction ss with
  | nil =>
    intro st _ _ _ _ i hi
    exact absurd hi (Nat.not_lt_zero i)
  | cons S rest ih =>
    intro st hinv hsort hne hss i hi t
    have hS := hss S (List.mem_cons_self S rest)
    obtain ⟨hrec1, hrec2⟩ := reconcile_spec ns agent f st S hinv hsort hne hS.1 hS.2
    cases i with
    | zero =>
      exact hrec2 t
    | succ j =>
      have hj : j < rest.length := Nat.lt_of_succ_lt_succ hi
      have hinv2 : ∀ t, t ∈ (reconcile ns agent f st S).map.map Prod.fst
          ↔ ∃ s ∈ (reconcile ns agent f st S).subscriptions,
            t = SubscriptionTopic ns s := by
        intro t
        rw [hrec1]
        exact hrec2 t
      exact ih (reconcile ns agent f st S) hinv2
        (by rw [hrec1]; exact hS.1) (by rw [hrec1]; exact hS.2)
        (fun S2 h2 => hss S2 (List.mem_cons_of_mem _ h2)) j hj t

/-- C3 (amended): starting from an empty subscription map, for every
finite sequence of sorted, duplicate-free subscription lists of non-empty
names applied through reconciliation, after step `i` the set of keys of
the subscription map equals the set of `SubscriptionTopic ns s` for `s` in
the i-th list. -/
theorem subscription_map_reconcile_spec (ns agent : String)
    (f : String → Nat) (ss : List (List String))
    (hss : ∀ S ∈ ss, S.Pairwise (· < ·) ∧ "" ∉ S)
    (i : Nat) (hi : i < ss.length) :
    ((runReconcile ns agent f ⟨[], []⟩ (ss.take (i+1))).map.map
      Prod.fst).toFinset
      = ((ss.get ⟨i, hi⟩).map (SubscriptionTopic ns)).toFinset := by
  ext t
  rw [List.mem_toFinset, List.mem_toFinset,
    runReconcile_keys ns agent f ss ⟨[], []⟩ (by simp) (by simp) (by simp)
      hss i hi t, List.mem_map]
  constructor
  · rintro ⟨s, hs, h⟩
    exact ⟨s, hs, h.symm⟩
  · rintro ⟨s, hs, h⟩
    exact ⟨s, hs, h.symm⟩

/-- Witness for `subscription_map_reconcile_spec` at the sequence
`[["a","b"], ["b","c"]]`, step 1. -/
theorem subscription_map_reconcile_spec_witness :
    ((runReconcile "default" "node-1" (fun _ => 0) ⟨[], []⟩
        (List.take 2 [["a", "b"], ["b", "c"]])).map.map Prod.fst).toFinset
      = (["b", "c"].map (SubscriptionTopic "default")).toFinset :=
  subscription_map_reconcile_spec "default" "node-1" (fun _ => 0)
    [["a", "b"], ["b", "c"]]
    (by
      intro S hS
      rcases List.mem_cons.mp hS with rfl | hS
      · exact ⟨by simp [String.lt_iff_toList_lt]; decide, by decide⟩
      · rcases List.mem_cons.mp hS with rfl | hS
        · exact ⟨by simp [String.lt_iff_toList_lt]; decide, by decide⟩
        · cases hS)
    1 (by decide)

/-- C3 (counterexample to the original claim): for sorted lists that are
not duplicate-free — `["a","a"]` then `["a"]` — or that contain the empty
string — `[""]` — the key set of the subscription map after the step does
not equal the topic set of the step's list. -/
theorem subscription_map_reconcile_cex :
    List.Pairwise (fun a b : String => a ≤ b) ["a", "a"] ∧
    List.Pairwise (fun a b : String => a ≤ b) ["a"] ∧
    ((runReconcile "default" "node-1" (fun _ => 0) ⟨[], []⟩
        (List.take 2 [["a", "a"], ["a"]])).map.map Prod.fst).toFinset
      ≠ (["a"].map (SubscriptionTopic "default")).toFinset ∧
    List.Pairwise (fun a b : String => a ≤ b) [""] ∧
    ((runReconcile "default" "node-1" (fun _ => 0) ⟨[], []⟩
        (List.take 1 [[""]])).map.map Prod.fst).toFinset
      ≠ ([""].map (SubscriptionTopic "default")).toFinset := by
  have hd1 : diff [] ["a", "a"] = (["a", "a"], []) := by simp [diff]
  have hd2 : diff ["a", "a"] ["a"] = ([], ["a"]) := by simp [diff]
  have hd3 : diff ([] : List String) [] = ([], []) := by simp [diff]
  have hs0 : sortSubscriptions [] = [] := by decide
  have hsaa : sortSubscriptions ["a", "a"] = ["a", "a"] := by decide
  have hsa : sortSubscriptions ["a"] = ["a"] := by decide
  have hse : sortSubscriptions [""] = [] := by decide
  have hsub1 : subscribe "default" (fun t => Except.ok 0) [] ["a", "a"]
      = ⟨[(SubscriptionTopic "default" "a", 0)],
          [.sub (SubscriptionTopic "default" "a")], none⟩ := by decide
  have huns1 : unsubscribe "default" "node-1" false false (fun _ => true)
      (fun _ => RingOutcome.ok) [(SubscriptionTopic "default" "a", 0)] ["a"]
      = ⟨[], [.cancel (SubscriptionTopic "default" "a")], [], [], 0⟩ := by decide
  have hr1 : reconcile "default" "node-1" (fun _ => 0) ⟨[], []⟩ ["a", "a"]
      = ⟨["a", "a"], [(SubscriptionTopic "default" "a", 0)]⟩ := by
    simp [reconcile, hs0, hsaa, hd1, hsub1]
  have hr2 : reconcile "default" "node-1" (fun _ => 0)
      ⟨["a", "a"], [(SubscriptionTopic "default" "a", 0)]⟩ ["a"]
      = ⟨["a"], []⟩ := by
    simp [reconcile, hsaa, hsa, hd2, huns1]
  have hr3 : reconcile "default" "node-1" (fun _ => 0) ⟨[], []⟩ [""]
      = ⟨[], []⟩ := by
    simp [reconcile, hs0, hse, hd3]
  have hrun : runReconcile "default" "node-1" (fun _ => 0) ⟨[], []⟩
      [["a", "a"], ["a"]] = ⟨["a"], []⟩ := by
    simp [runReconcile, hr1, hr2]
  have hrun2 : runReconcile "default" "node-1" (fun _ => 0) ⟨[], []⟩ [[""]]
      = ⟨[], []⟩ := by
    simp [runReconcile, hr3]
  refine ⟨by simp, by simp, ?_, by simp, ?_⟩
  · rw [show List.take 2 [["a", "a"], ["a"]] = [["a", "a"], ["a"]] from rfl,
      hrun]
    decide
  · rw [show List.take 1 [[""]] = [[""]] from rfl, hrun2]
    decide

end Agentd
